import Mathlib

/-!
Shallow embedding of the sound-agent conversion-and-classification engine:
the NC curve table (`src/lib/conversions/nc-curves.ts`), the unit-conversion
functions and the measurement aggregator (`src/lib/conversions/index.ts`),
and the chart component's private classifier
(`src/components/sound/NCCurveChart.tsx`).

Octave-band levels and NC ratings are modelled as rationals (every
JavaScript float is a rational, and all table arithmetic is exact);
the sones/phons/dBA formulas involve `log2`/`10^x` and are modelled
over the reals.  JavaScript `Math.round` is `round` (half away from
zero is not JS behaviour; JS rounds half toward +inf, which is
Mathlib's `round x = ⌊x + 1/2⌋`).
-/

/-- The eight standard octave-band center frequencies (63 Hz … 8 kHz). -/
inductive Freq : Type
  | f63 | f125 | f250 | f500 | f1000 | f2000 | f4000 | f8000
deriving DecidableEq, Fintype

/-- `OCTAVE_BAND_FREQUENCIES` from `src/lib/conversions/types.ts`. -/
def OCTAVE_BAND_FREQUENCIES : List Freq :=
  [.f63, .f125, .f250, .f500, .f1000, .f2000, .f4000, .f8000]

/-- `OctaveBandData`: a dB level at each of the eight frequencies. -/
abbrev OctaveBandData : Type := Freq → ℚ

/-- Helper to write an `OctaveBandData` record literal. -/
def mkBands (a b c d e g h i : ℚ) : OctaveBandData :=
  fun f => match f with
  | .f63 => a | .f125 => b | .f250 => c | .f500 => d
  | .f1000 => e | .f2000 => g | .f4000 => h | .f8000 => i

/-- `NCCurve`: a rating paired with its threshold spectrum. -/
structure NCCurve : Type where
  rating : ℚ
  values : OctaveBandData

instance : DecidableEq NCCurve := fun a b =>
  decidable_of_iff (a.rating = b.rating ∧ a.values = b.values)
    (by cases a; cases b; simp)

/-- `NC_CURVES` from `src/lib/conversions/nc-curves.ts`. -/
def NC_CURVES : List NCCurve :=
  [ ⟨15, mkBands 47 36 29 22 17 14 12 11⟩,
    ⟨20, mkBands 51 40 33 26 22 19 17 16⟩,
    ⟨25, mkBands 54 44 37 31 27 24 22 21⟩,
    ⟨30, mkBands 57 48 41 35 31 29 28 27⟩,
    ⟨35, mkBands 60 52 45 40 36 34 33 32⟩,
    ⟨40, mkBands 64 56 50 45 41 39 38 37⟩,
    ⟨45, mkBands 67 60 54 49 46 44 43 42⟩,
    ⟨50, mkBands 71 64 58 54 51 49 48 47⟩,
    ⟨55, mkBands 74 67 62 58 56 54 53 52⟩,
    ⟨60, mkBands 77 71 67 63 61 59 58 57⟩,
    ⟨65, mkBands 80 75 71 68 66 64 63 62⟩,
    ⟨70, mkBands 83 79 75 72 71 70 69 68⟩ ]

/-- `getNCCurve` from `src/lib/conversions/nc-curves.ts`. -/
def getNCCurve (rating : ℚ) : Option NCCurve :=
  NC_CURVES.find? (fun c => decide (c.rating = rating))

/-- `interpolateNCCurve` from `src/lib/conversions/nc-curves.ts`. -/
def interpolateNCCurve (rating : ℚ) : OctaveBandData :=
  let clampedRating := max 15 (min 70 rating)
  let lowerCurve := (NC_CURVES.filter (fun c => decide (c.rating ≤ clampedRating))).getLast?
  let upperCurve := NC_CURVES.find? (fun c => decide (clampedRating ≤ c.rating))
  match lowerCurve, upperCurve with
  | some lower, some upper =>
    if lower.rating = upper.rating then
      lower.values
    else
      let t := (clampedRating - lower.rating) / (upper.rating - lower.rating)
      fun f => ((round (lower.values f + t * (upper.values f - lower.values f)) : ℤ) : ℚ)
  | _, _ =>
    -- defensive fallback: `NC_CURVES.reduce` picks the curve with rating closest to target
    let closest : NCCurve :=
      match NC_CURVES with
      | [] => ⟨0, mkBands 0 0 0 0 0 0 0 0⟩
      | c0 :: rest =>
        rest.foldl
          (fun prev curr =>
            if |curr.rating - clampedRating| < |prev.rating - clampedRating| then curr else prev)
          c0
    closest.values

/-- The containment test of `calculateNCRating`: `allContained` is false
iff some octave-band value strictly exceeds the curve value. -/
def allContained (octaveBands : OctaveBandData) (c : NCCurve) : Bool :=
  OCTAVE_BAND_FREQUENCIES.all (fun f => !(decide (c.values f < octaveBands f)))

/-- `calculateNCRating` from `src/lib/conversions/nc-curves.ts`: first curve
(in table order) containing all band values; 70 if none does. -/
def calculateNCRating (octaveBands : OctaveBandData) : ℚ :=
  match NC_CURVES.find? (fun c => allContained octaveBands c) with
  | some curve => curve.rating
  | none => 70

/-- `calculateContainingNCRating` from
`src/components/sound/NCCurveChart.tsx` (the component's private copy of
the classifier, translated independently). -/
def calculateContainingNCRating (userData : OctaveBandData) : ℚ :=
  match NC_CURVES.find?
      (fun curve => OCTAVE_BAND_FREQUENCIES.all (fun f => !(decide (curve.values f < userData f)))) with
  | some curve => curve.rating
  | none => 70

/-- Confidence levels of a `ConversionResult` (`src/lib/conversions/types.ts`). -/
inductive Confidence : Type
  | exact | approximate | estimated
deriving DecidableEq

/-- Provenance tag of a `SoundMeasurement` (`src/lib/conversions/types.ts`). -/
inductive Source : Type
  | input | calculated
deriving DecidableEq

/-- `ConversionResult` from `src/lib/conversions/types.ts`, parametrised by
the numeric type of `value` (rationals for table arithmetic, integers for
rounded results, reals for the logarithmic chains). -/
structure ConversionResult (α : Type) : Type where
  value : α
  confidence : Confidence
  notes : Option String := none

/-- `SoundMeasurement` from `src/lib/conversions/types.ts`. -/
structure SoundMeasurement : Type where
  sones : Option ℝ := none
  nc : Option ℚ := none
  dba : Option ℝ := none
  octaveBands : Option OctaveBandData := none
  source : Option Source := none

/-- `A_WEIGHTING` correction table from `src/lib/conversions/index.ts`. -/
def A_WEIGHTING : Freq → ℚ :=
  mkBands (-26.2) (-16.1) (-8.6) (-3.2) 0 1.2 1.0 (-1.1)

/-- `sonesToPhons` from `src/lib/conversions/index.ts`:
`phons = 40 + 10 * log2(sones)` for positive sones, else 0. -/
noncomputable def sonesToPhons (sones : ℝ) : ℝ :=
  if sones ≤ 0 then 0 else 40 + 10 * Real.logb 2 sones

/-- `phonsToSones` from `src/lib/conversions/index.ts`:
`(phons/40)^2.642` below 40 phons, else `2^((phons-40)/10)`. -/
noncomputable def phonsToSones (phons : ℝ) : ℝ :=
  if phons < 40 then (phons / 40) ^ (2.642 : ℝ)
  else (2 : ℝ) ^ ((phons - 40) / 10)

/-- `sonesToDBA` from `src/lib/conversions/index.ts`. -/
noncomputable def sonesToDBA (sones : ℝ) : ConversionResult ℝ :=
  if sones ≤ 0 then
    { value := 0, confidence := .exact }
  else
    { value := ((round (sonesToPhons sones * 10) : ℤ) : ℝ) / 10,
      confidence := .approximate,
      notes := some ("dBA approximated from sones via phons. Accuracy depends on frequency content.") }

/-- `dbaToSones` from `src/lib/conversions/index.ts`. -/
noncomputable def dbaToSones (dba : ℝ) : ConversionResult ℝ :=
  if dba ≤ 0 then
    { value := 0, confidence := .exact }
  else
    { value := ((round (phonsToSones dba * 100) : ℤ) : ℝ) / 100,
      confidence := .approximate,
      notes := some ("Sones approximated from dBA. Actual loudness depends on frequency content.") }

/-- `octaveBandsToDBA` from `src/lib/conversions/index.ts`: A-weighted
logarithmic energy sum over the eight bands. -/
noncomputable def octaveBandsToDBA (octaveBands : OctaveBandData) : ConversionResult ℝ :=
  let sumPressureSquared : ℝ :=
    (OCTAVE_BAND_FREQUENCIES.map
      (fun f => (10 : ℝ) ^ ((((octaveBands f : ℚ) : ℝ) + ((A_WEIGHTING f : ℚ) : ℝ)) / 10))).sum
  let overallDBA : ℝ := 10 * Real.logb 10 sumPressureSquared
  { value := ((round (overallDBA * 10) : ℤ) : ℝ) / 10,
    confidence := .exact,
    notes := some ("Calculated using A-weighting factors and logarithmic addition.") }

/-- `ncToDBA` from `src/lib/conversions/index.ts`: `nc + 6`. -/
def ncToDBA (nc : ℚ) : ConversionResult ℚ :=
  { value := nc + 6,
    confidence := .approximate,
    notes := some ("NC to dBA approximation (NC + 6). Actual difference varies with spectrum shape.") }

/-- `dbaToNC` from `src/lib/conversions/index.ts`: `round(dba - 6)`. -/
noncomputable def dbaToNC (dba : ℝ) : ConversionResult ℤ :=
  { value := round (dba - 6),
    confidence := .approximate,
    notes := some ("dBA to NC approximation (dBA - 6). Actual NC requires octave band analysis.") }

/-- `octaveBandsToNC` from `src/lib/conversions/index.ts`. -/
def octaveBandsToNC (octaveBands : OctaveBandData) : ConversionResult ℚ :=
  { value := calculateNCRating octaveBands,
    confidence := .exact,
    notes := some ("NC determined by comparing octave band levels to standard NC curves.") }

/-- `ncToSones` from `src/lib/conversions/index.ts`: NC → dBA → sones chain. -/
noncomputable def ncToSones (nc : ℚ) : ConversionResult ℝ :=
  let dbaResult := ncToDBA nc
  let sonesResult := dbaToSones ((dbaResult.value : ℚ) : ℝ)
  { value := sonesResult.value,
    confidence := .estimated,
    notes := some ("Estimated via NC → dBA → Sones. Significant uncertainty.") }

/-- `sonesToNC` from `src/lib/conversions/index.ts`: sones → dBA → NC chain. -/
noncomputable def sonesToNC (sones : ℝ) : ConversionResult ℤ :=
  let dbaResult := sonesToDBA sones
  let ncResult := dbaToNC dbaResult.value
  { value := ncResult.value,
    confidence := .estimated,
    notes := some ("Estimated via Sones → dBA → NC. Significant uncertainty.") }

/-- `ncToOctaveBands` from `src/lib/conversions/index.ts`. -/
def ncToOctaveBands (nc : ℚ) : OctaveBandData :=
  interpolateNCCurve nc

/-- `octaveBandsToSones` from `src/lib/conversions/index.ts`:
octave bands → dBA → sones chain. -/
noncomputable def octaveBandsToSones (octaveBands : OctaveBandData) : ConversionResult ℝ :=
  let dbaResult := octaveBandsToDBA octaveBands
  let sonesResult := dbaToSones dbaResult.value
  { value := sonesResult.value,
    confidence := .approximate,
    notes := some ("Calculated via octave bands → dBA → sones.") }

/-- `convertSoundMeasurement` from `src/lib/conversions/index.ts`: the
aggregator fills every derivable field from the first input field present
in the priority order octaveBands > nc > dba > sones. -/
noncomputable def convertSoundMeasurement (input : SoundMeasurement) : SoundMeasurement :=
  match input.octaveBands with
  | some ob =>
    { source := some .calculated,
      octaveBands := some ob,
      nc := some (octaveBandsToNC ob).value,
      dba := some (octaveBandsToDBA ob).value,
      sones := some (octaveBandsToSones ob).value }
  | none =>
    match input.nc with
    | some n =>
      { source := some .calculated,
        nc := some n,
        dba := some (((ncToDBA n).value : ℚ) : ℝ),
        sones := some (ncToSones n).value,
        octaveBands := some (ncToOctaveBands n) }
    | none =>
      match input.dba with
      | some d =>
        { source := some .calculated,
          dba := some d,
          nc := some (((dbaToNC d).value : ℤ) : ℚ),
          sones := some (dbaToSones d).value,
          octaveBands := none }
      | none =>
        match input.sones with
        | some s =>
          { source := some .calculated,
            sones := some s,
            dba := some (sonesToDBA s).value,
            nc := some (((sonesToNC s).value : ℤ) : ℚ),
            octaveBands := none }
        | none => { source := some .calculated }

/-- Modelled from the spec: the ScaleGuard function `exceedsNC70` (§4.4) is
imported by `src/app/page.tsx` from the conversions library, but its defining
module is not among the provided sources.  Spec: true iff, for any standard
frequency `f`, `spectrum[f] > NCCurveTable.getCurve(70).values[f]`. -/
def exceedsNC70 (spectrum : OctaveBandData) : Bool :=
  match getNCCurve 70 with
  | some c => OCTAVE_BAND_FREQUENCIES.any (fun f => decide (c.values f < spectrum f))
  | none => false

/-- Modelled from the spec: the ScaleGuard function `maxNC70Excess` (named
`getMaxNC70Excess` at its import site in `src/app/page.tsx`); its defining
module is not among the provided sources.  Spec:
`max(0, max over f of (spectrum[f] − curve70[f]))`; 0 when not exceeding. -/
def getMaxNC70Excess (spectrum : OctaveBandData) : ℚ :=
  match getNCCurve 70 with
  | some c => (OCTAVE_BAND_FREQUENCIES.map (fun f => spectrum f - c.values f)).foldl max 0
  | none => 0

/-- All-zero test spectrum. -/
def zeroSpectrum : OctaveBandData := mkBands 0 0 0 0 0 0 0 0

/-- The spectrum of the spec's ScaleGuard literal scenario. -/
def nc70TestSpectrum : OctaveBandData := mkBands 90 88 93 87 86 82 83 76

/-- Aggregator test input with conflicting `octaveBands` and `nc` both set. -/
def conflictingInput : SoundMeasurement :=
  { octaveBands := some zeroSpectrum, nc := some 30 }

/-- Abbreviation for the k-th standard curve, used by the interpolation
proofs (`NC_CURVES.length` reduces to 12). -/
def curveAt (k : Fin 12) : NCCurve :=
  NC_CURVES.get (Fin.cast (rfl : (12 : ℕ) = NC_CURVES.length) k)

/-! ## Helper lemmas -/

theorem round_rat_mono {x y : ℚ} (h : x ≤ y) : round x ≤ round y := by
  rw [round_eq, round_eq]
  exact Int.floor_le_floor (by linarith)

theorem freq_mem_bands (f : Freq) : f ∈ OCTAVE_BAND_FREQUENCIES := by
  cases f <;> decide

theorem allContained_iff (ob : OctaveBandData) (c : NCCurve) :
    allContained ob c = true ↔ ∀ f : Freq, ob f ≤ c.values f := by
  simp only [allContained, OCTAVE_BAND_FREQUENCIES, List.all_cons, List.all_nil,
    Bool.and_eq_true, Bool.not_eq_true', decide_eq_false_iff_not, not_lt, and_true]
  constructor
  · rintro ⟨h1, h2, h3, h4, h5, h6, h7, h8⟩ f
    cases f <;> assumption
  · intro h
    exact ⟨h _, h _, h _, h _, h _, h _, h _, h _⟩

theorem foldl_max_init_le (l : List ℚ) (a : ℚ) : a ≤ l.foldl max a := by
  induction l generalizing a with
  | nil => exact le_refl a
  | cons b t ih => exact le_trans (le_max_left a b) (ih (max a b))

theorem foldl_max_mem_le (l : List ℚ) (a : ℚ) : ∀ x ∈ l, x ≤ l.foldl max a := by
  induction l generalizing a with
  | nil => intro x hx; cases hx
  | cons b t ih =>
    intro x hx
    rcases List.mem_cons.mp hx with h | h
    · subst h
      exact le_trans (le_max_right a x) (foldl_max_init_le t (max a x))
    · exact ih (max a b) x h

theorem foldl_max_cases (l : List ℚ) (a : ℚ) :
    l.foldl max a = a ∨ ∃ x ∈ l, l.foldl max a = x := by
  induction l generalizing a with
  | nil => exact Or.inl rfl
  | cons b t ih =>
    rcases ih (max a b) with h | ⟨x, hx, hfx⟩
    · rcases max_choice a b with hm | hm
      · exact Or.inl (by rw [List.foldl_cons, h, hm])
      · exact Or.inr ⟨b, List.mem_cons_self b t, by rw [List.foldl_cons, h, hm]⟩
    · exact Or.inr ⟨x, List.mem_cons_of_mem b hx, by rw [List.foldl_cons, hfx]⟩

theorem find?_first_sorted (p : NCCurve → Bool) :
    ∀ l : List NCCurve, l.Pairwise (fun a b => a.rating ≤ b.rating) →
      ∀ c, l.find? p = some c →
        p c = true ∧ ∀ c' ∈ l, p c' = true → c.rating ≤ c'.rating := by
  intro l
  induction l with
  | nil => intro _ c h; cases h
  | cons a t ih =>
    intro hp c h
    rcases List.pairwise_cons.mp hp with ⟨ha, ht⟩
    by_cases hpa : p a = true
    · rw [List.find?_cons_of_pos _ hpa] at h
      rcases Option.some.inj h with rfl
      refine ⟨hpa, ?_⟩
      intro c' hc' _
      rcases List.mem_cons.mp hc' with rfl | hc't
      · exact le_refl _
      · exact ha c' hc't
    · rw [List.find?_cons_of_neg _ hpa] at h
      rcases ih ht c h with ⟨hpc, hmin⟩
      refine ⟨hpc, ?_⟩
      intro c' hc' hpc'
      rcases List.mem_cons.mp hc' with rfl | hc't
      · exact absurd hpc' hpa
      · exact hmin c' hc't hpc'

theorem ncCurvesSortedLe : NC_CURVES.Pairwise (fun a b => a.rating ≤ b.rating) := by
  decide

/-! ## Claim theorems -/

/-- C1 (amended): the chained conversions `ncToSones` and `sonesToNC` return
confidence "estimated" for every input, but `octaveBandsToSones` returns
confidence "approximate" for every input — the sones value derived from an
octave-band spectrum carries confidence "approximate", not "estimated". -/
theorem claim_C1_amended :
    (∀ nc : ℚ, (ncToSones nc).confidence = Confidence.estimated)
    ∧ (∀ s : ℝ, (sonesToNC s).confidence = Confidence.estimated)
    ∧ (∀ ob : OctaveBandData, (octaveBandsToSones ob).confidence = Confidence.approximate) :=
  ⟨fun _ => rfl, fun _ => rfl, fun _ => rfl⟩

/-- C1 counterexample: on the all-zero spectrum, `octaveBandsToSones` returns
confidence "approximate", not "estimated", refuting the claim that every
chained conversion through dBA (including `octaveBandsToSones`) is tagged
"estimated". -/
theorem claim_C1_counterexample :
    (octaveBandsToSones zeroSpectrum).confidence = Confidence.approximate
    ∧ (octaveBandsToSones zeroSpectrum).confidence ≠ Confidence.estimated :=
  ⟨rfl, fun h => by cases h⟩

/-- C6: each standard curve's own threshold spectrum classifies as exactly
that curve's rating, for every rating in 15, 20, …, 70. -/
theorem claim_C6 :
    ∀ r ∈ ([15, 20, 25, 30, 35, 40, 45, 50, 55, 60, 65, 70] : List ℚ),
      ((getNCCurve r).map fun c => calculateNCRating c.values) = some r := by
  decide

/-- C6 witness at rating 35. -/
theorem claim_C6_witness :
    ((getNCCurve 35).map fun c => calculateNCRating c.values) = some 35 :=
  claim_C6 35 (by decide)

/-- C7: `ncToDBA` adds 6 and `dbaToNC` rounds after subtracting 6, both with
confidence "approximate"; `dbaToNC 51 = 45`, `ncToDBA 45 = 51`, and the two
are exact inverses on every integer NC rating. -/
theorem claim_C7 :
    (∀ nc : ℚ, (ncToDBA nc).value = nc + 6 ∧ (ncToDBA nc).confidence = Confidence.approximate)
    ∧ (∀ dba : ℝ, (dbaToNC dba).value = round (dba - 6)
        ∧ (dbaToNC dba).confidence = Confidence.approximate)
    ∧ (dbaToNC 51).value = 45
    ∧ (ncToDBA 45).value = 51
    ∧ ∀ n : ℤ, (dbaToNC (((ncToDBA (n : ℚ)).value : ℚ) : ℝ)).value = n := by
  refine ⟨fun nc => ⟨rfl, rfl⟩, fun dba => ⟨rfl, rfl⟩, ?_, ?_, ?_⟩
  · show round ((51 : ℝ) - 6) = 45
    norm_num [round_eq]
  · show (45 : ℚ) + 6 = 51
    norm_num
  · intro n
    show round ((((n : ℚ) + 6 : ℚ) : ℝ) - 6) = n
    have h : (((n : ℚ) + 6 : ℚ) : ℝ) - 6 = (n : ℝ) := by push_cast; ring
    rw [h, round_intCast]

/-- C8: the sones/phons round trip is the identity for every phon level at or
above 40, and `sonesToPhons 1 = 40`, `phonsToSones 40 = 1`. -/
theorem claim_C8 (p : ℝ) (hp : 40 ≤ p) :
    sonesToPhons (phonsToSones p) = p
    ∧ sonesToPhons 1 = 40
    ∧ phonsToSones 40 = 1 := by
  refine ⟨?_, ?_, ?_⟩
  · have h1 : phonsToSones p = (2 : ℝ) ^ ((p - 40) / 10) := if_neg (not_lt.mpr hp)
    have h2 : (0 : ℝ) < (2 : ℝ) ^ ((p - 40) / 10) := Real.rpow_pos_of_pos (by norm_num) _
    rw [h1, sonesToPhons, if_neg (not_le.mpr h2),
      Real.logb_rpow (by norm_num) (by norm_num)]
    ring
  · rw [sonesToPhons, if_neg (by norm_num : ¬(1 : ℝ) ≤ 0), Real.logb_one]
    ring
  · rw [phonsToSones, if_neg (lt_irrefl 40)]
    have h : ((40 : ℝ) - 40) / 10 = 0 := by norm_num
    rw [h, Real.rpow_zero]

/-- C8 witness at the threshold p = 40. -/
theorem claim_C8_witness :
    (40 : ℝ) ≤ 40 ∧ sonesToPhons (phonsToSones 40) = 40 :=
  ⟨le_refl 40, (claim_C8 40 (le_refl 40)).1⟩

/-- C9: non-positive sones or dBA inputs short-circuit to an exact 0 result
(value 0, confidence "exact", no notes) in `sonesToDBA` and `dbaToSones`. -/
theorem claim_C9 (s d : ℝ) (hs : s ≤ 0) (hd : d ≤ 0) :
    sonesToDBA s = { value := 0, confidence := Confidence.exact, notes := none }
    ∧ dbaToSones d = { value := 0, confidence := Confidence.exact, notes := none } := by
  constructor
  · rw [sonesToDBA, if_pos hs]
  · rw [dbaToSones, if_pos hd]

/-- C9 witness at s = 0 and d = -3. -/
theorem claim_C9_witness :
    sonesToDBA 0 = { value := 0, confidence := Confidence.exact, notes := none }
    ∧ dbaToSones (-3) = { value := 0, confidence := Confidence.exact, notes := none } :=
  claim_C9 0 (-3) (by norm_num) (by norm_num)

/-- C10: the chart component's private classifier agrees with the conversion
library's classifier on every octave-band spectrum. -/
theorem claim_C10 :
    ∀ userData : OctaveBandData,
      calculateContainingNCRating userData = calculateNCRating userData :=
  fun _ => rfl

/-- C2 (amended, ScaleGuard modelled from the spec since its module is not
among the provided sources): `exceedsNC70` is true iff some band exceeds the
NC-70 curve, and `getMaxNC70Excess` is the maximum of 0 and the largest
per-band excess; on the spec's literal spectrum `exceedsNC70` is true and the
maximum excess is 18 (attained at 250 Hz: 93 − 75), not 7. -/
theorem claim_C2_amended :
    (∀ (spectrum : OctaveBandData) (c70 : NCCurve), getNCCurve 70 = some c70 →
      (exceedsNC70 spectrum = true ↔ ∃ f : Freq, c70.values f < spectrum f)
      ∧ 0 ≤ getMaxNC70Excess spectrum
      ∧ (∀ f : Freq, spectrum f - c70.values f ≤ getMaxNC70Excess spectrum)
      ∧ (getMaxNC70Excess spectrum = 0
          ∨ ∃ f : Freq, getMaxNC70Excess spectrum = spectrum f - c70.values f))
    ∧ exceedsNC70 nc70TestSpectrum = true
    ∧ getMaxNC70Excess nc70TestSpectrum = 18 := by
  refine ⟨?_, by decide, ?_⟩
  · intro sp c70 h
    refine ⟨?_, ?_, ?_, ?_⟩
    · constructor
      · intro hex
        simp only [exceedsNC70, h, OCTAVE_BAND_FREQUENCIES, List.any_cons, List.any_nil,
          Bool.or_eq_true, decide_eq_true_eq, Bool.false_eq_true, or_false] at hex
        rcases hex with h1 | h1 | h1 | h1 | h1 | h1 | h1 | h1
        exacts [⟨Freq.f63, h1⟩, ⟨Freq.f125, h1⟩, ⟨Freq.f250, h1⟩, ⟨Freq.f500, h1⟩,
          ⟨Freq.f1000, h1⟩, ⟨Freq.f2000, h1⟩, ⟨Freq.f4000, h1⟩, ⟨Freq.f8000, h1⟩]
      · rintro ⟨f, hf⟩
        simp only [exceedsNC70, h, OCTAVE_BAND_FREQUENCIES, List.any_cons, List.any_nil,
          Bool.or_eq_true, decide_eq_true_eq, Bool.false_eq_true, or_false]
        cases f <;> tauto
    · simp only [getMaxNC70Excess, h]
      exact foldl_max_init_le _ 0
    · intro f
      simp only [getMaxNC70Excess, h]
      exact foldl_max_mem_le _ 0 _ (List.mem_map_of_mem _ (freq_mem_bands f))
    · simp only [getMaxNC70Excess, h]
      rcases foldl_max_cases (OCTAVE_BAND_FREQUENCIES.map fun f => sp f - c70.values f) 0 with
        hc | ⟨x, hx, hfx⟩
      · exact Or.inl hc
      · rcases List.mem_map.mp hx with ⟨f, _, rfl⟩
        exact Or.inr ⟨f, hfx⟩
  · norm_num [getMaxNC70Excess, getNCCurve, NC_CURVES, mkBands, OCTAVE_BAND_FREQUENCIES,
      nc70TestSpectrum, List.find?, List.foldl]

/-- C2 counterexample: on the spec's own literal spectrum the maximum NC-70
excess is 18, so the claimed value 7 is wrong. -/
theorem claim_C2_counterexample :
    getMaxNC70Excess nc70TestSpectrum = 18 ∧ getMaxNC70Excess nc70TestSpectrum ≠ 7 := by
  have h : getMaxNC70Excess nc70TestSpectrum = 18 := by
    norm_num [getMaxNC70Excess, getNCCurve, NC_CURVES, mkBands, OCTAVE_BAND_FREQUENCIES,
      nc70TestSpectrum, List.find?, List.foldl]
  exact ⟨h, by rw [h]; norm_num⟩

/-- C2 witness: the main part of the amended theorem applied to the spec's
literal spectrum and the concrete NC-70 curve. -/
theorem claim_C2_amended_witness : 0 ≤ getMaxNC70Excess nc70TestSpectrum :=
  (claim_C2_amended.1 nc70TestSpectrum ⟨70, mkBands 83 79 75 72 71 70 69 68⟩ (by decide)).2.1

/-- C4: `calculateNCRating` returns the lowest standard rating whose curve
pointwise contains the spectrum, saturates at 70 when no curve contains it,
and classifies the all-zero spectrum as 15. -/
theorem claim_C4 (ob : OctaveBandData) :
    ((∀ c ∈ NC_CURVES, ¬ ∀ f : Freq, ob f ≤ c.values f) → calculateNCRating ob = 70)
    ∧ (∀ c ∈ NC_CURVES, (∀ f : Freq, ob f ≤ c.values f) →
        ∃ c' ∈ NC_CURVES, calculateNCRating ob = c'.rating
          ∧ (∀ f : Freq, ob f ≤ c'.values f)
          ∧ ∀ c'' ∈ NC_CURVES, (∀ f : Freq, ob f ≤ c''.values f) → c'.rating ≤ c''.rating)
    ∧ calculateNCRating zeroSpectrum = 15 := by
  refine ⟨?_, ?_, by decide⟩
  · intro hnone
    have hfind : NC_CURVES.find? (fun c => allContained ob c) = none :=
      List.find?_eq_none.mpr fun c hc hpc => hnone c hc ((allContained_iff ob c).mp hpc)
    rw [calculateNCRating, hfind]
  · intro c hc hcont
    cases hfind : NC_CURVES.find? (fun c => allContained ob c) with
    | none =>
      exact absurd ((allContained_iff ob c).mpr hcont) (List.find?_eq_none.mp hfind c hc)
    | some c' =>
      rcases find?_first_sorted _ NC_CURVES ncCurvesSortedLe c' hfind with ⟨hpc', hmin⟩
      refine ⟨c', List.mem_of_find?_eq_some hfind, ?_, (allContained_iff ob c').mp hpc', ?_⟩
      · rw [calculateNCRating, hfind]
      · intro c'' hc'' hcont''
        exact hmin c'' hc'' ((allContained_iff ob c'').mpr hcont'')

/-- C4 witness: the all-zero spectrum is contained in the NC-15 curve, and
the classifier returns the least containing rating for it. -/
theorem claim_C4_witness :
    ∃ c' ∈ NC_CURVES, calculateNCRating zeroSpectrum = c'.rating
      ∧ (∀ f : Freq, zeroSpectrum f ≤ c'.values f)
      ∧ ∀ c'' ∈ NC_CURVES, (∀ f : Freq, zeroSpectrum f ≤ c''.values f) → c'.rating ≤ c''.rating :=
  (claim_C4 zeroSpectrum).2.1 ⟨15, mkBands 47 36 29 22 17 14 12 11⟩ (by decide) (by decide)

/-- C3: the aggregator treats the first field present in the priority order
octaveBands > nc > dba > sones as authoritative; with conflicting
`octaveBands` and `nc` both set, the output `nc` is `classify(octaveBands)`
and not the supplied `nc`, and in each branch every other field is
overwritten by a derived value. -/
theorem claim_C3 :
    (∀ (input : SoundMeasurement) (ob : OctaveBandData) (n : ℚ),
      input.octaveBands = some ob → input.nc = some n → n ≠ calculateNCRating ob →
        (convertSoundMeasurement input).nc = some (calculateNCRating ob)
        ∧ (convertSoundMeasurement input).nc ≠ input.nc)
    ∧ (∀ (input : SoundMeasurement) (ob : OctaveBandData), input.octaveBands = some ob →
        convertSoundMeasurement input =
          { source := some Source.calculated, octaveBands := some ob,
            nc := some (octaveBandsToNC ob).value,
            dba := some (octaveBandsToDBA ob).value,
            sones := some (octaveBandsToSones ob).value })
    ∧ (∀ (input : SoundMeasurement) (n : ℚ),
        input.octaveBands = none → input.nc = some n →
        convertSoundMeasurement input =
          { source := some Source.calculated, nc := some n,
            dba := some (((ncToDBA n).value : ℚ) : ℝ),
            sones := some (ncToSones n).value,
            octaveBands := some (ncToOctaveBands n) })
    ∧ (∀ (input : SoundMeasurement) (d : ℝ),
        input.octaveBands = none → input.nc = none → input.dba = some d →
        convertSoundMeasurement input =
          { source := some Source.calculated, dba := some d,
            nc := some (((dbaToNC d).value : ℤ) : ℚ),
            sones := some (dbaToSones d).value,
            octaveBands := none })
    ∧ (∀ (input : SoundMeasurement) (s : ℝ),
        input.octaveBands = none → input.nc = none → input.dba = none → input.sones = some s →
        convertSoundMeasurement input =
          { source := some Source.calculated, sones := some s,
            dba := some (sonesToDBA s).value,
            nc := some (((sonesToNC s).value : ℤ) : ℚ),
            octaveBands := none }) := by
  refine ⟨?_, ?_, ?_, ?_, ?_⟩
  · intro input ob n h1 h2 h3
    constructor
    · simp only [convertSoundMeasurement, h1]
      rfl
    · simp only [convertSoundMeasurement, h1, h2]
      intro heq
      exact h3 (Option.some.inj heq).symm
  · intro input ob h1
    simp only [convertSoundMeasurement, h1]
  · intro input n h1 h2
    simp only [convertSoundMeasurement, h1, h2]
  · intro input d h1 h2 h3
    simp only [convertSoundMeasurement, h1, h2, h3]
  · intro input s h1 h2 h3 h4
    simp only [convertSoundMeasurement, h1, h2, h3, h4]

/-- C3 witness: an input with both `octaveBands` (the all-zero spectrum) and
a conflicting `nc` of 30; the output `nc` is the classified 15, not 30. -/
theorem claim_C3_witness :
    (convertSoundMeasurement conflictingInput).nc = some (calculateNCRating zeroSpectrum)
    ∧ (convertSoundMeasurement conflictingInput).nc ≠ conflictingInput.nc :=
  claim_C3.1 conflictingInput zeroSpectrum 30 rfl rfl (by decide)

/-! ## Interpolation helpers for C5 -/

theorem ncLen : NC_CURVES.length = 12 := rfl

theorem ratingBounds : ∀ k : Fin 12, 15 ≤ (curveAt k).rating ∧ (curveAt k).rating ≤ 70 := by
  decide

theorem ratingMonoLe : ∀ i j : Fin 12, i ≤ j → (curveAt i).rating ≤ (curveAt j).rating := by
  decide

theorem ratingMonoLt : ∀ i j : Fin 12, i < j → (curveAt i).rating < (curveAt j).rating := by
  decide

theorem valuesMonoTable :
    ∀ i j : Fin 12, i ≤ j → ∀ f : Freq, (curveAt i).values f ≤ (curveAt j).values f := by
  decide

theorem valuesDenOne : ∀ (k : Fin 12) (f : Freq), ((curveAt k).values f).den = 1 := by
  decide

theorem round_eq_self_of_den_one (q : ℚ) (h : q.den = 1) : ((round q : ℤ) : ℚ) = q := by
  have h2 : ((q.num : ℚ)) = q := by
    conv_rhs => rw [← Rat.num_div_den q]
    rw [h]
    norm_num
  rw [← h2, round_intCast]

theorem filter_le_split (r : ℚ) :
    ∀ l1 : List NCCurve, (∀ c ∈ l1, c.rating ≤ r) →
      ∀ l2 : List NCCurve, (∀ c ∈ l2, ¬ c.rating ≤ r) →
        (l1 ++ l2).filter (fun c => decide (c.rating ≤ r)) = l1 := by
  intro l1
  induction l1 with
  | nil =>
    intro _ l2 h2
    simp only [List.nil_append]
    exact List.filter_eq_nil_iff.mpr fun c hc => by simpa using h2 c hc
  | cons a t ih =>
    intro h1 l2 h2
    simp only [List.cons_append]
    rw [List.filter_cons_of_pos (by simpa using h1 a (List.mem_cons_self a t)),
      ih (fun c hc => h1 c (List.mem_cons_of_mem a hc)) l2 h2]

theorem find_ge_split (r : ℚ) :
    ∀ l1 : List NCCurve, (∀ c' ∈ l1, ¬ r ≤ c'.rating) →
      ∀ (c : NCCurve) (l2 : List NCCurve), r ≤ c.rating →
        (l1 ++ c :: l2).find? (fun c' => decide (r ≤ c'.rating)) = some c := by
  intro l1
  induction l1 with
  | nil =>
    intro _ c l2 hc
    simp only [List.nil_append]
    exact List.find?_cons_of_pos _ (by simpa using hc)
  | cons a t ih =>
    intro h1 c l2 hc
    simp only [List.cons_append]
    rw [List.find?_cons_of_neg _ (by simpa using h1 a (List.mem_cons_self a t))]
    exact ih (fun c' hc' => h1 c' (List.mem_cons_of_mem a hc')) c l2 hc

theorem getLast?_take_get :
    ∀ (l : List NCCurve) (k : ℕ) (hk : k < l.length),
      (l.take (k + 1)).getLast? = some (l.get ⟨k, hk⟩) := by
  intro l
  induction l with
  | nil => intro k hk; simp at hk
  | cons a t ih =>
    intro k hk
    cases k with
    | zero => simp
    | succ k' =>
      have hk' : k' < t.length := by simpa using hk
      rw [List.take_succ_cons]
      have ihr := ih k' hk'
      cases htk : t.take (k' + 1) with
      | nil => rw [htk] at ihr; cases ihr
      | cons b tb =>
        rw [htk] at ihr
        rw [List.getLast?_cons_cons]
        exact ihr

theorem take_rating_le (k : ℕ) (hk : k < 12) :
    ∀ c ∈ NC_CURVES.take (k + 1), c.rating ≤ (curveAt ⟨k, hk⟩).rating := by
  intro c hc
  rcases List.mem_iff_get.mp hc with ⟨⟨i, hi⟩, hget⟩
  have hik : i ≤ k := by
    rw [List.length_take, ncLen] at hi
    omega
  have hi12 : i < 12 := by omega
  have hgeteq : (NC_CURVES.take (k + 1)).get ⟨i, hi⟩ =
      NC_CURVES.get ⟨i, by rw [ncLen]; omega⟩ := by
    simp [List.getElem_take]
  rw [← hget, hgeteq]
  exact ratingMonoLe ⟨i, hi12⟩ ⟨k, hk⟩ (Fin.mk_le_mk.mpr hik)

theorem take_rating_lt (k : ℕ) (hk : k < 12) :
    ∀ c ∈ NC_CURVES.take k, c.rating < (curveAt ⟨k, hk⟩).rating := by
  intro c hc
  rcases List.mem_iff_get.mp hc with ⟨⟨i, hi⟩, hget⟩
  have hik : i < k := by
    rw [List.length_take, ncLen] at hi
    omega
  have hi12 : i < 12 := by omega
  have hgeteq : (NC_CURVES.take k).get ⟨i, hi⟩ =
      NC_CURVES.get ⟨i, by rw [ncLen]; omega⟩ := by
    simp [List.getElem_take]
  rw [← hget, hgeteq]
  exact ratingMonoLt ⟨i, hi12⟩ ⟨k, hk⟩ (Fin.mk_lt_mk.mpr hik)

theorem drop_rating_gt (k : ℕ) (hk : k < 12) :
    ∀ c ∈ NC_CURVES.drop (k + 1), (curveAt ⟨k, hk⟩).rating < c.rating := by
  intro c hc
  rcases List.mem_iff_get.mp hc with ⟨⟨i, hi⟩, hget⟩
  have hi12 : k + 1 + i < 12 := by
    rw [List.length_drop, ncLen] at hi
    omega
  have hgeteq : (NC_CURVES.drop (k + 1)).get ⟨i, hi⟩ =
      NC_CURVES.get ⟨k + 1 + i, by rw [ncLen]; omega⟩ := by
    simp [List.getElem_drop]
  rw [← hget, hgeteq]
  exact ratingMonoLt ⟨k, hk⟩ ⟨k + 1 + i, hi12⟩ (Fin.mk_lt_mk.mpr (by omega))

theorem drop_rating_ge (m : ℕ) (hm : m < 12) :
    ∀ c ∈ NC_CURVES.drop m, (curveAt ⟨m, hm⟩).rating ≤ c.rating := by
  intro c hc
  rcases List.mem_iff_get.mp hc with ⟨⟨i, hi⟩, hget⟩
  have hi12 : m + i < 12 := by
    rw [List.length_drop, ncLen] at hi
    omega
  have hgeteq : (NC_CURVES.drop m).get ⟨i, hi⟩ =
      NC_CURVES.get ⟨m + i, by rw [ncLen]; omega⟩ := by
    simp [List.getElem_drop]
  rw [← hget, hgeteq]
  exact ratingMonoLe ⟨m, hm⟩ ⟨m + i, hi12⟩ (Fin.mk_le_mk.mpr (by omega))

theorem interp_lower (k : ℕ) (hk : k < 12) (r : ℚ)
    (h1 : (curveAt ⟨k, hk⟩).rating ≤ r)
    (h2 : ∀ c ∈ NC_CURVES.drop (k + 1), ¬ c.rating ≤ r) :
    (NC_CURVES.filter (fun c => decide (c.rating ≤ r))).getLast? = some (curveAt ⟨k, hk⟩) := by
  conv_lhs => rw [← List.take_append_drop (k + 1) NC_CURVES]
  rw [filter_le_split r _ (fun c hc => le_trans (take_rating_le k hk c hc) h1) _ h2]
  exact getLast?_take_get NC_CURVES k (by rw [ncLen]; omega)

theorem interp_upper (k : ℕ) (hk : k < 12) (r : ℚ)
    (h1 : ∀ c ∈ NC_CURVES.take k, ¬ r ≤ c.rating)
    (h2 : r ≤ (curveAt ⟨k, hk⟩).rating) :
    NC_CURVES.find? (fun c => decide (r ≤ c.rating)) = some (curveAt ⟨k, hk⟩) := by
  conv_lhs =>
    rw [← List.take_append_drop k NC_CURVES,
      List.drop_eq_getElem_cons (show k < NC_CURVES.length by rw [ncLen]; omega)]
  exact find_ge_split r _ h1 _ _ h2


theorem interp_knot (k : ℕ) (hk : k < 12) :
    interpolateNCCurve ((curveAt ⟨k, hk⟩).rating) = (curveAt ⟨k, hk⟩).values := by
  have hb := ratingBounds ⟨k, hk⟩
  have hcl : max 15 (min 70 (curveAt ⟨k, hk⟩).rating) = (curveAt ⟨k, hk⟩).rating := by
    rw [min_eq_right hb.2, max_eq_right hb.1]
  have hlow := interp_lower k hk ((curveAt ⟨k, hk⟩).rating) (le_refl _)
    (fun c hc => not_le.mpr (drop_rating_gt k hk c hc))
  have hup := interp_upper k hk ((curveAt ⟨k, hk⟩).rating)
    (fun c hc => not_le.mpr (take_rating_lt k hk c hc)) (le_refl _)
  unfold interpolateNCCurve
  simp only [hcl, hlow, hup, if_true]

theorem interp_seg (k : ℕ) (hk1 : k + 1 < 12) (r : ℚ)
    (h1 : (curveAt ⟨k, by omega⟩).rating < r) (h2 : r < (curveAt ⟨k + 1, hk1⟩).rating) :
    interpolateNCCurve r = fun f =>
      ((round ((curveAt ⟨k, by omega⟩).values f +
          (r - (curveAt ⟨k, by omega⟩).rating) /
              ((curveAt ⟨k + 1, hk1⟩).rating - (curveAt ⟨k, by omega⟩).rating) *
            ((curveAt ⟨k + 1, hk1⟩).values f - (curveAt ⟨k, by omega⟩).values f)) : ℤ) : ℚ) := by
  have hk : k < 12 := by omega
  have hbk := ratingBounds ⟨k, hk⟩
  have hbk1 := ratingBounds ⟨k + 1, hk1⟩
  have hr15 : 15 ≤ r := le_trans hbk.1 (le_of_lt h1)
  have hr70 : r ≤ 70 := le_trans (le_of_lt h2) hbk1.2
  have hcl : max 15 (min 70 r) = r := by rw [min_eq_right hr70, max_eq_right hr15]
  have hlow := interp_lower k hk r (le_of_lt h1)
    (fun c hc => not_le.mpr (lt_of_lt_of_le h2 (drop_rating_ge (k + 1) hk1 c hc)))
  have hup := interp_upper (k + 1) hk1 r
    (fun c hc => not_le.mpr (lt_of_le_of_lt (take_rating_le k hk c hc) h1)) (le_of_lt h2)
  have hne : (curveAt ⟨k, hk⟩).rating ≠ (curveAt ⟨k + 1, hk1⟩).rating :=
    ne_of_lt (ratingMonoLt ⟨k, hk⟩ ⟨k + 1, hk1⟩ (Fin.mk_lt_mk.mpr (by omega)))
  unfold interpolateNCCurve
  simp only [hcl, hlow, hup]
  rw [if_neg hne]

theorem round_affine_bounds (L U ρ q r : ℚ)
    (hden : 0 < q - ρ) (hd : L ≤ U) (h1 : ρ ≤ r) (h2 : r ≤ q)
    (hL : ((round L : ℤ) : ℚ) = L) (hU : ((round U : ℤ) : ℚ) = U) :
    L ≤ ((round (L + (r - ρ) / (q - ρ) * (U - L)) : ℤ) : ℚ)
    ∧ ((round (L + (r - ρ) / (q - ρ) * (U - L)) : ℤ) : ℚ) ≤ U := by
  have htnn : 0 ≤ (r - ρ) / (q - ρ) := div_nonneg (by linarith) (le_of_lt hden)
  have ht1 : (r - ρ) / (q - ρ) ≤ 1 := (div_le_one hden).mpr (by linarith)
  have hmul0 : 0 ≤ (r - ρ) / (q - ρ) * (U - L) := mul_nonneg htnn (by linarith)
  have hmul1 : (r - ρ) / (q - ρ) * (U - L) ≤ U - L := by
    calc (r - ρ) / (q - ρ) * (U - L) ≤ 1 * (U - L) :=
          mul_le_mul_of_nonneg_right ht1 (by linarith)
      _ = U - L := one_mul _
  constructor
  · calc L = ((round L : ℤ) : ℚ) := hL.symm
      _ ≤ _ := Int.cast_le.mpr (round_rat_mono (by linarith))
  · calc ((round (L + (r - ρ) / (q - ρ) * (U - L)) : ℤ) : ℚ)
        ≤ ((round U : ℤ) : ℚ) := Int.cast_le.mpr (round_rat_mono (by linarith))
      _ = U := hU

theorem round_affine_mono (L U ρ q r1 r2 : ℚ)
    (hden : 0 < q - ρ) (hd : L ≤ U) (h12 : r1 ≤ r2) :
    ((round (L + (r1 - ρ) / (q - ρ) * (U - L)) : ℤ) : ℚ)
      ≤ ((round (L + (r2 - ρ) / (q - ρ) * (U - L)) : ℤ) : ℚ) := by
  have ht : (r1 - ρ) / (q - ρ) ≤ (r2 - ρ) / (q - ρ) :=
    (div_le_div_iff_of_pos_right hden).mpr (by linarith)
  have hmul := mul_le_mul_of_nonneg_right ht (by linarith : (0 : ℚ) ≤ U - L)
  exact Int.cast_le.mpr (round_rat_mono (by linarith))

theorem seg_mono (k : ℕ) (hk1 : k + 1 < 12) (r1 r2 : ℚ) (f : Freq)
    (ha : (curveAt ⟨k, by omega⟩).rating ≤ r1) (hb : r1 ≤ r2)
    (hc : r2 ≤ (curveAt ⟨k + 1, hk1⟩).rating) :
    interpolateNCCurve r1 f ≤ interpolateNCCurve r2 f := by
  have hk : k < 12 := by omega
  have hdlt : (curveAt ⟨k, hk⟩).rating < (curveAt ⟨k + 1, hk1⟩).rating :=
    ratingMonoLt ⟨k, hk⟩ ⟨k + 1, hk1⟩ (Fin.mk_lt_mk.mpr (by omega))
  have hvle : (curveAt ⟨k, hk⟩).values f ≤ (curveAt ⟨k + 1, hk1⟩).values f :=
    valuesMonoTable ⟨k, hk⟩ ⟨k + 1, hk1⟩ (Fin.mk_le_mk.mpr (by omega)) f
  have hL := round_eq_self_of_den_one _ (valuesDenOne ⟨k, hk⟩ f)
  have hU := round_eq_self_of_den_one _ (valuesDenOne ⟨k + 1, hk1⟩ f)
  rcases eq_or_lt_of_le ha with haeq | halt
  · rw [← haeq, interp_knot k hk]
    rcases eq_or_lt_of_le hc with hceq | hclt
    · rw [hceq, interp_knot (k + 1) hk1]
      exact hvle
    · rcases eq_or_lt_of_le (le_trans ha hb) with hbeq | hblt
      · rw [← hbeq, interp_knot k hk]
      · simp only [interp_seg k hk1 r2 hblt hclt]
        exact (round_affine_bounds _ _ _ _ r2 (by linarith) hvle (le_of_lt hblt)
          (le_of_lt hclt) hL hU).1
  · rcases eq_or_lt_of_le hc with hceq | hclt
    · rw [hceq, interp_knot (k + 1) hk1]
      rcases eq_or_lt_of_le (le_trans hb hc) with h1eq | h1lt
      · rw [h1eq, interp_knot (k + 1) hk1]
      · simp only [interp_seg k hk1 r1 halt h1lt]
        exact (round_affine_bounds _ _ _ _ r1 (by linarith) hvle (le_of_lt halt)
          (le_of_lt h1lt) hL hU).2
    · have h1lt : r1 < (curveAt ⟨k + 1, hk1⟩).rating := lt_of_le_of_lt hb hclt
      simp only [interp_seg k hk1 r1 halt h1lt,
        interp_seg k hk1 r2 (lt_of_lt_of_le halt hb) hclt]
      exact round_affine_mono _ _ _ _ r1 r2 (by linarith) hvle hb

theorem interp_mono_from :
    ∀ n k : ℕ, 10 - k = n → (hk : k ≤ 10) → ∀ (r1 r2 : ℚ) (f : Freq),
      (curveAt ⟨k, by omega⟩).rating ≤ r1 → r1 ≤ r2 →
      r2 ≤ (curveAt ⟨11, by omega⟩).rating →
      interpolateNCCurve r1 f ≤ interpolateNCCurve r2 f := by
  intro n
  induction n with
  | zero =>
    intro k hn hk r1 r2 f h1 h2 h3
    have hk10 : k = 10 := by omega
    subst hk10
    exact seg_mono 10 (by omega) r1 r2 f h1 h2 h3
  | succ n ihn =>
    intro k hn hk r1 r2 f h1 h2 h3
    rcases le_or_lt r2 ((curveAt ⟨k + 1, by omega⟩).rating) with hc | hc
    · exact seg_mono k (by omega) r1 r2 f h1 h2 hc
    · rcases le_or_lt ((curveAt ⟨k + 1, by omega⟩).rating) r1 with hd | hd
      · exact ihn (k + 1) (by omega) (by omega) r1 r2 f hd h2 h3
      · exact le_trans
          (seg_mono k (by omega) r1 ((curveAt ⟨k + 1, by omega⟩).rating) f h1 (le_of_lt hd)
            (le_refl _))
          (ihn (k + 1) (by omega) (by omega) _ r2 f (le_refl _) (le_of_lt hc) h3)

/-- C5: interpolated NC curves are pointwise monotone in the rating over
[15, 70]: for ratings r1 < r2 in that range and every standard frequency,
the interpolated threshold at r1 is at most the one at r2 (resting on the
table invariant that thresholds are non-decreasing in the rating at each
fixed frequency). -/
theorem claim_C5 (r1 r2 : ℚ) (f : Freq) (ha : 15 ≤ r1) (hb : r1 < r2) (hc : r2 ≤ 70) :
    interpolateNCCurve r1 f ≤ interpolateNCCurve r2 f := by
  have h15 : (curveAt ⟨0, by omega⟩).rating = 15 := rfl
  have h70 : (curveAt ⟨11, by omega⟩).rating = 70 := rfl
  exact interp_mono_from 10 0 (by omega) (by omega) r1 r2 f (by rw [h15]; exact ha)
    (le_of_lt hb) (by rw [h70]; exact hc)

/-- C5 witness at r1 = 20, r2 = 32, 63 Hz. -/
theorem claim_C5_witness :
    interpolateNCCurve 20 Freq.f63 ≤ interpolateNCCurve 32 Freq.f63 :=
  claim_C5 20 32 Freq.f63 (by norm_num) (by norm_num) (by norm_num)
